import Mathlib

/-!
# csvquote: a shallow embedding of `csvquote.c`

The C program replaces, inside quoted CSV fields, every delimiter and record
separator by a non-printing byte (`sanitize`), and maps those bytes back
(`restore`).  The two `static` flags of `sanitize` are passed explicitly as a
`SanitizeState`; the streams of `copy_file` are modelled by the successive
outcomes of `fread` and `fwrite`.
-/

namespace Csvquote

/-- One C `char`.  The program only compares and stores such values. -/
abbrev Byte := Fin 256

/-- `#define READ_BUFFER_SIZE 4096` -/
def READ_BUFFER_SIZE : Nat := 4096

/-- `#define NON_PRINTING_FIELD_SEPARATOR 0x1F` -/
def NON_PRINTING_FIELD_SEPARATOR : Byte := 0x1F

/-- `#define NON_PRINTING_RECORD_SEPARATOR 0x1E` -/
def NON_PRINTING_RECORD_SEPARATOR : Byte := 0x1E

/-- `typedef enum { HEADER_MODE, RESTORE_MODE, SANITIZE_MODE } operation_mode;` -/
inductive operation_mode where
  | HEADER_MODE
  | RESTORE_MODE
  | SANITIZE_MODE
  deriving DecidableEq, Repr

/-- The two `static bool` variables of `sanitize` (lines 37-38). -/
structure SanitizeState where
  isQuoteInEffect : Bool
  isMaybeEscapedQuoteChar : Bool
  deriving DecidableEq, Repr

namespace SanitizeState

/-- Both statics are initialised to `false`. -/
def init : SanitizeState := ⟨false, false⟩

/-- Spec state `Unquoted`: no quote in effect, no pending quote. -/
def Unquoted : SanitizeState := ⟨false, false⟩

/-- Spec state `Quoted`: quote in effect, no pending quote. -/
def Quoted : SanitizeState := ⟨true, false⟩

/-- Spec state `PendingQuoteEnd`: a quote was just seen while quoted. -/
def PendingQuoteEnd : SanitizeState := ⟨true, true⟩

end SanitizeState

/-- `restore` (lines 17-30): the value left in `*c`.  The `switch` has no
default case, so every other byte is left as it is. -/
def restore (delimiter _quotechar recordsep : Byte) (c : Byte) : Byte :=
  if c = NON_PRINTING_FIELD_SEPARATOR then delimiter
  else if c = NON_PRINTING_RECORD_SEPARATOR then recordsep
  else c

/-- `sanitize` (lines 32-63): the statics after the call and the value left
in `*c`. -/
def sanitize (delimiter quotechar recordsep : Byte) (s : SanitizeState) (c : Byte) :
    SanitizeState × Byte :=
  if s.isMaybeEscapedQuoteChar then
    if c ≠ quotechar then
      ({ isQuoteInEffect := false, isMaybeEscapedQuoteChar := false }, c)
    else
      ({ isQuoteInEffect := s.isQuoteInEffect, isMaybeEscapedQuoteChar := false }, c)
  else if s.isQuoteInEffect then
    if c = quotechar then
      ({ isQuoteInEffect := s.isQuoteInEffect, isMaybeEscapedQuoteChar := true }, c)
    else if c = delimiter then
      (s, NON_PRINTING_FIELD_SEPARATOR)
    else if c = recordsep then
      (s, NON_PRINTING_RECORD_SEPARATOR)
    else
      (s, c)
  else
    if c = quotechar then
      ({ isQuoteInEffect := true, isMaybeEscapedQuoteChar := s.isMaybeEscapedQuoteChar }, c)
    else
      (s, c)

/-- `typedef void (*translator)(const char, const char, const char, char *);`
with the statics of `sanitize` threaded through. -/
abbrev translator := Byte → Byte → Byte → SanitizeState → Byte → SanitizeState × Byte

/-- The function `restore` seen as a `translator`: it never touches the statics. -/
def restore_translator : translator :=
  fun delimiter quotechar recordsep s c => (s, restore delimiter quotechar recordsep c)

/-- The inner loop of `copy_file` (lines 82-85): `trans` is applied to every
byte of the buffer, in order, in place. -/
def translate_buffer (trans : translator) (del quo rec : Byte) :
    SanitizeState → List Byte → SanitizeState × List Byte
  | s, [] => (s, [])
  | s, c :: cs =>
    let r := trans del quo rec s c
    let rest := translate_buffer trans del quo rec r.1 cs
    (rest.1, r.2 :: rest.2)

/-- The outcome of one call `fread(buffer, sizeof(char), sizeof(buffer), in)`:
the bytes stored in `buffer` (the call returns their number) and whether the
call set the error indicator of the stream.  The buffer holds
`READ_BUFFER_SIZE` bytes, so a call stores no more than that; nothing in
`copy_file` depends on the bound, and `copy_file` never looks at the
indicator. -/
structure FreadResult where
  bytes : List Byte
  error : Bool
  deriving DecidableEq, Repr

/-- An input stream `FILE *in`, given by the outcomes of the successive calls
of `fread` on it.  Once the list is used up `fread` returns 0. -/
abbrev FILE := List FreadResult

/-- The outcomes of `fread` with a buffer of `size` bytes on an error-free
stream that holds the bytes `S`: full buffers, then the shorter rest.
`fuel` bounds the number of calls; `S.length` is enough when `0 < size`. -/
def fread_chunks (size : Nat) : Nat → List Byte → FILE
  | 0, _ => []
  | fuel + 1, S =>
    if S.length = 0 then []
    else { bytes := S.take size, error := false } :: fread_chunks size fuel (S.drop size)

/-- The standard output stream: the bytes written so far, and for each coming
call of `fwrite` how many bytes it can take at most.  When `room` is used up
every later `fwrite` takes all it is given. -/
structure Stdout where
  written : List Byte
  room : List Nat
  deriving DecidableEq, Repr

/-- The call `fwrite(buffer, sizeof(char), nbytes, stdout)`: the number of
bytes written, and the stream after the call. -/
def fwrite (buffer : List Byte) (out : Stdout) : Nat × Stdout :=
  match out.room with
  | [] => (buffer.length, { written := out.written ++ buffer, room := [] })
  | k :: ks =>
    (min k buffer.length, { written := out.written ++ buffer.take k, room := ks })

/-- Modelled from the spec: the `check(A, M, ...)` helper of `dbg.h`, a header
that is not among the sources.  Spec §4.3 and §7: when the checked condition
fails the run is aborted at once, that is, control goes to the `error:` label
of the calling function; the message it logs goes to the error stream, which
is not modelled. -/
def check {α : Type} (cond : Bool) (onError onSuccess : α) : α :=
  if cond then onSuccess else onError

/-- The `while` loop of `copy_file` (lines 80-88) followed by `return 0`, and
the `error:` exit `return 1`.  The result is the return value, the statics of
`sanitize`, and the standard output. -/
def copy_loop (trans : translator) (del quo rec : Byte) :
    FILE → SanitizeState → Stdout → Nat × SanitizeState × Stdout
  | [], s, out => (0, s, out)
  | r :: rest, s, out =>
    if r.bytes.length = 0 then (0, s, out)
    else
      let t := translate_buffer trans del quo rec s r.bytes
      let w := fwrite t.2 out
      check (w.1 == r.bytes.length)
        (1, t.1, w.2)
        (copy_loop trans del quo rec rest t.1 w.2)

/-- The choice of the translator in `copy_file` (lines 71-73): `sanitize` by
default, `restore` in `RESTORE_MODE`. -/
def select_translator (op_mode : operation_mode) : translator :=
  if op_mode = operation_mode.RESTORE_MODE then restore_translator else sanitize

/-- `copy_file` (lines 65-94): in `HEADER_MODE` it returns 0 at once, otherwise
it runs the copy loop with the selected translator.  The `debug` calls only log
and are left out. -/
def copy_file (inp : FILE) (op_mode : operation_mode) (del quo rec : Byte)
    (s : SanitizeState) (out : Stdout) : Nat × SanitizeState × Stdout :=
  let trans := select_translator op_mode
  if op_mode = operation_mode.HEADER_MODE then (0, s, out)
  else copy_loop trans del quo rec inp s out

/-- The local variables `del`, `quo`, `rec` and `op_mode` of `main` (`rec_` stands
for `rec`, a name the structure needs for itself). -/
structure Options where
  del : Byte
  quo : Byte
  rec_ : Byte
  op_mode : operation_mode
  deriving DecidableEq, Repr

/-- The default parameters of `main` (lines 99-102): `,`, `"`, `\n` and
`SANITIZE_MODE`. -/
def default_options : Options :=
  { del := 44, quo := 34, rec_ := 10, op_mode := operation_mode.SANITIZE_MODE }

/-- The byte `optarg[0]`: the first byte of the operand, or the terminating
NUL of an empty operand. -/
def optarg0 (optarg : List Byte) : Byte := optarg.headD 0

/-- The `switch (opt)` of `main` (lines 106-136) for one value returned by
`getopt`; `none` is `goto usage`. -/
def option_switch (o : Options) (opt : Nat) (optarg : List Byte) : Option Options :=
  if opt = 104 then some { o with op_mode := operation_mode.HEADER_MODE }       -- h
  else if opt = 117 then some { o with op_mode := operation_mode.RESTORE_MODE } -- u
  else if opt = 100 then some { o with del := optarg0 optarg }                  -- d
  else if opt = 116 then some { o with del := 9 }                               -- t
  else if opt = 113 then some { o with quo := optarg0 optarg }                  -- q
  else if opt = 114 then some { o with rec_ := optarg0 optarg }                  -- r
  else none

/-- The `while ((opt = getopt(...)) != -1)` loop of `main` over the values
`getopt` returns, each with its `optarg`. -/
def option_loop : List (Nat × List Byte) → Options → Option Options
  | [], o => some o
  | (opt, optarg) :: rest, o =>
    match option_switch o opt optarg with
    | none => none
    | some o1 => option_loop rest o1

/-- The variable `FILE *input` of `main`: `NULL`, a stream that is open, or a
stream that `fclose` has closed already. -/
inductive InputPtr where
  | null
  | opened
  | closed
  deriving DecidableEq, Repr

/-- The statement `if (input) { fclose(input); }` (lines 151, 155 and 163):
nothing is done for `NULL`, an open stream is closed, and closing a stream a
second time is undefined behaviour, `none`. -/
def fclose_input : InputPtr → Option InputPtr
  | InputPtr.null => some InputPtr.null
  | InputPtr.opened => some InputPtr.closed
  | InputPtr.closed => none

/-- The `for` loop of `main` over the file names (lines 146-152).  Each file
is `none` when `fopen` fails and its stream otherwise.  The result is 0 when
the loop runs to its end and 1 when a `check` fails (`goto error`), with the
variable `input`, the statics of `sanitize` and the standard output at that
point.  `input` is set by every `fopen`: to `NULL` when it fails; the stream is
open when `copy_file` fails, and closed by line 151 (it is open there, the
first `check` has passed) when the iteration ends.  `input` is never set back
to `NULL`. -/
def main_files (o : Options) :
    List (Option FILE) → InputPtr → SanitizeState → Stdout →
      Nat × InputPtr × SanitizeState × Stdout
  | [], input, s, out => (0, input, s, out)
  | none :: _, _, s, out => (1, InputPtr.null, s, out)
  | some inp :: rest, _, s, out =>
    let r := copy_file inp o.op_mode o.del o.quo o.rec_ s out
    check (r.1 == 0)
      (1, InputPtr.opened, r.2.1, r.2.2)
      (main_files o rest InputPtr.closed r.2.1 r.2.2)

/-- The two exits of `main`, line 155 with `return 0` and the `error:` label
with `return 1`: both run `if (input) { fclose(input); }` first.  `none` is a
run whose behaviour is undefined. -/
def main_exit (status : Nat) (input : InputPtr) (s : SanitizeState) (out : Stdout) :
    Option (Nat × SanitizeState × Stdout) :=
  match fclose_input input with
  | none => none
  | some _ => some (status, s, out)

/-- `main` (lines 96-165): the exit status, the statics of `sanitize` and the
standard output at exit, or `none` when the behaviour of the run is undefined.
`opts` are the values `getopt` returns, `files` the outcome of `fopen` for each
file name left after the options.  `input` starts as `NULL` and stays so when
the standard input is read.  The usage message goes to the error stream and
is left out. -/
def main (opts : List (Nat × List Byte)) (stdin : FILE) (files : List (Option FILE))
    (out : Stdout) : Option (Nat × SanitizeState × Stdout) :=
  match option_loop opts default_options with
  | none => some (1, SanitizeState.init, out)
  | some o =>
    match files with
    | [] =>
      let r := copy_file stdin o.op_mode o.del o.quo o.rec_ SanitizeState.init out
      check (r.1 == 0)
        (main_exit 1 InputPtr.null r.2.1 r.2.2)
        (main_exit 0 InputPtr.null r.2.1 r.2.2)
    | _ :: _ =>
      let r := main_files o files InputPtr.null SanitizeState.init out
      main_exit r.1 r.2.1 r.2.2.1 r.2.2.2

/-- All the bytes that the successive calls of `fread` deliver from a stream. -/
def stream_bytes (inp : FILE) : List Byte := (inp.map FreadResult.bytes).flatten

/-- A read and the room of the `fwrite` call that follows it, when the loop of
`copy_file` goes on after them: the read is not empty and the write takes the
whole buffer. -/
def complete_write (x : FreadResult) (k : Nat) : Prop :=
  x.bytes ≠ [] ∧ x.bytes.length ≤ k

/-- One run of calls of `sanitize`, each with its own delimiter, quote
character, record separator and byte: the statics after the last call. -/
def sanitize_calls (calls : List (Byte × Byte × Byte × Byte)) (s : SanitizeState) :
    SanitizeState :=
  calls.foldl (fun st x => (sanitize x.1 x.2.1 x.2.2.1 st x.2.2.2).1) s

/-! ## Auxiliary facts -/

theorem restore_sanitize_byte (d q r : Byte) (s : SanitizeState) (c : Byte)
    (hF : c ≠ NON_PRINTING_FIELD_SEPARATOR) (hR : c ≠ NON_PRINTING_RECORD_SEPARATOR) :
    restore d q r (sanitize d q r s c).2 = c := by
  have hne : NON_PRINTING_RECORD_SEPARATOR ≠ NON_PRINTING_FIELD_SEPARATOR := by decide
  unfold sanitize restore
  split_ifs <;> simp_all

theorem translate_buffer_restore (d q r : Byte) (s : SanitizeState) (S : List Byte) :
    translate_buffer restore_translator d q r s S = (s, S.map (restore d q r)) := by
  induction S generalizing s with
  | nil => rfl
  | cons c cs ih => simp [translate_buffer, ih, restore_translator]

theorem translate_buffer_append (trans : translator) (d q r : Byte) (s : SanitizeState)
    (S T : List Byte) :
    translate_buffer trans d q r s (S ++ T) =
      ((translate_buffer trans d q r (translate_buffer trans d q r s S).1 T).1,
       (translate_buffer trans d q r s S).2 ++
         (translate_buffer trans d q r (translate_buffer trans d q r s S).1 T).2) := by
  induction S generalizing s with
  | nil => simp [translate_buffer]
  | cons c cs ih => simp [translate_buffer, ih]

theorem translate_buffer_length (trans : translator) (d q r : Byte) (s : SanitizeState)
    (S : List Byte) : (translate_buffer trans d q r s S).2.length = S.length := by
  induction S generalizing s with
  | nil => rfl
  | cons c cs ih => simp [translate_buffer, ih]

theorem restore_sanitize_buffer (d q r : Byte) (s : SanitizeState) (S : List Byte)
    (hF : NON_PRINTING_FIELD_SEPARATOR ∉ S) (hR : NON_PRINTING_RECORD_SEPARATOR ∉ S) :
    (translate_buffer sanitize d q r s S).2.map (restore d q r) = S := by
  induction S generalizing s with
  | nil => rfl
  | cons c cs ih =>
    simp only [List.mem_cons, not_or] at hF hR
    simp only [translate_buffer, List.map_cons]
    rw [ih _ hF.2 hR.2, restore_sanitize_byte d q r s c (Ne.symm hF.1) (Ne.symm hR.1)]

theorem translate_buffer_getElem? (trans : translator) (d q r : Byte) (s : SanitizeState)
    (S : List Byte) (i : Nat) (c : Byte) (h : S[i]? = some c) :
    (translate_buffer trans d q r s S).2[i]? =
      some (trans d q r (translate_buffer trans d q r s (S.take i)).1 c).2 := by
  induction S generalizing s i with
  | nil => simp at h
  | cons x xs ih =>
    cases i with
    | zero =>
      simp only [List.getElem?_cons_zero, Option.some.injEq] at h
      subst h
      simp [translate_buffer]
    | succ j =>
      simp only [List.getElem?_cons_succ] at h
      simp only [translate_buffer, List.getElem?_cons_succ, List.take_succ_cons]
      exact ih _ j h

theorem stream_bytes_cons (x : FreadResult) (inp : FILE) :
    stream_bytes (x :: inp) = x.bytes ++ stream_bytes inp := by
  simp [stream_bytes]

theorem stream_bytes_flatten_cons (f : FILE) (F : List FILE) :
    (List.map stream_bytes (f :: F)).flatten = stream_bytes f ++ (List.map stream_bytes F).flatten := by
  simp

theorem fwrite_all (buffer w : List Byte) :
    fwrite buffer ⟨w, []⟩ = (buffer.length, ⟨w ++ buffer, []⟩) := rfl

/-- When no read is empty and every write is complete, the copy loop returns 0
having written the translation of all the bytes of the stream. -/
theorem copy_loop_complete (trans : translator) (d q r : Byte) (inp : FILE)
    (s : SanitizeState) (w : List Byte) (hne : ∀ x ∈ inp, x.bytes ≠ []) :
    copy_loop trans d q r inp s ⟨w, []⟩ =
      (0, (translate_buffer trans d q r s (stream_bytes inp)).1,
        ⟨w ++ (translate_buffer trans d q r s (stream_bytes inp)).2, []⟩) := by
  induction inp generalizing s w with
  | nil => simp [copy_loop, stream_bytes, translate_buffer]
  | cons x rest ih =>
    have hx : x.bytes.length ≠ 0 := by
      have := hne x (List.mem_cons_self _ _)
      simpa [List.length_eq_zero] using this
    have hrest : ∀ y ∈ rest, y.bytes ≠ [] := fun y hy => hne y (List.mem_cons_of_mem _ hy)
    rw [copy_loop, if_neg hx]
    simp only [fwrite_all, translate_buffer_length, beq_self_eq_true, check, if_true]
    rw [ih _ _ hrest, stream_bytes_cons, translate_buffer_append]
    simp [List.append_assoc]

theorem copy_file_complete (op_mode : operation_mode)
    (hm : op_mode ≠ operation_mode.HEADER_MODE) (d q r : Byte) (inp : FILE)
    (s : SanitizeState) (w : List Byte) (hne : ∀ x ∈ inp, x.bytes ≠ []) :
    copy_file inp op_mode d q r s ⟨w, []⟩ =
      (0, (translate_buffer (select_translator op_mode) d q r s (stream_bytes inp)).1,
        ⟨w ++ (translate_buffer (select_translator op_mode) d q r s (stream_bytes inp)).2, []⟩) := by
  unfold copy_file
  simp only [if_neg hm]
  exact copy_loop_complete _ d q r inp s w hne

theorem fread_chunks_nonempty (size : Nat) (fuel : Nat) (S : List Byte) (hsize : 0 < size) :
    ∀ x ∈ fread_chunks size fuel S, x.bytes ≠ [] := by
  induction fuel generalizing S with
  | zero => simp [fread_chunks]
  | succ n ih =>
    intro x hx
    unfold fread_chunks at hx
    split_ifs at hx with h
    · simp at hx
    · rcases List.mem_cons.1 hx with rfl | hx
      · have hS : S ≠ [] := fun e => h (by simp [e])
        cases S with
        | nil => exact absurd rfl hS
        | cons a t =>
          obtain ⟨k, rfl⟩ : ∃ k, size = k + 1 := ⟨size - 1, by omega⟩
          simp
      · exact ih _ x hx

theorem fread_chunks_bytes (size : Nat) (fuel : Nat) (S : List Byte) (hsize : 0 < size)
    (hfuel : S.length ≤ fuel) : stream_bytes (fread_chunks size fuel S) = S := by
  induction fuel generalizing S with
  | zero =>
    have : S = [] := List.length_eq_zero.1 (Nat.le_zero.1 hfuel)
    subst this
    simp [fread_chunks, stream_bytes]
  | succ n ih =>
    unfold fread_chunks
    split_ifs with h
    · have : S = [] := List.length_eq_zero.1 h
      subst this
      simp [stream_bytes]
    · rw [stream_bytes_cons, ih]
      · exact List.take_append_drop size S
      · rw [List.length_drop]
        omega

/-- When every `fopen` succeeds, no read is empty and every write is complete,
the loop of `main` over the files runs to its end having written the
translation of the bytes of all the files, one after the other; `input` is
then the last file, closed. -/
theorem main_files_complete (o : Options) (hm : o.op_mode ≠ operation_mode.HEADER_MODE)
    (F : List FILE) (input : InputPtr) (s : SanitizeState) (w : List Byte)
    (hne : ∀ f ∈ F, ∀ x ∈ f, x.bytes ≠ []) :
    main_files o (F.map some) input s ⟨w, []⟩ =
      (0, (if F = [] then input else InputPtr.closed),
        (translate_buffer (select_translator o.op_mode) o.del o.quo o.rec_ s
            (F.map stream_bytes).flatten).1,
        ⟨w ++ (translate_buffer (select_translator o.op_mode) o.del o.quo o.rec_ s
            (F.map stream_bytes).flatten).2, []⟩) := by
  induction F generalizing input s w with
  | nil => simp [main_files, translate_buffer]
  | cons f rest ih =>
    have hf : ∀ x ∈ f, x.bytes ≠ [] := hne f (List.mem_cons_self _ _)
    have hrest : ∀ g ∈ rest, ∀ x ∈ g, x.bytes ≠ [] :=
      fun g hg => hne g (List.mem_cons_of_mem _ hg)
    rw [List.map_cons, main_files, copy_file_complete o.op_mode hm _ _ _ f s w hf]
    simp only [beq_self_eq_true, check, if_true]
    rw [ih _ _ _ hrest, stream_bytes_flatten_cons, translate_buffer_append]
    by_cases hr : rest = [] <;> simp [hr, List.append_assoc]

theorem fwrite_room (buffer w : List Byte) (k : Nat) (ks : List Nat)
    (h : buffer.length ≤ k) :
    fwrite buffer ⟨w, k :: ks⟩ = (buffer.length, ⟨w ++ buffer, ks⟩) := by
  simp [fwrite, Nat.min_eq_right h, List.take_of_length_le h]

/-- Reads that are followed by complete writes are copied, and the loop goes
on with the rest of the stream from the state and the output they leave. -/
theorem copy_loop_continues (trans : translator) (d q r : Byte) (pre : FILE) (rs : List Nat)
    (hpre : List.Forall₂ complete_write pre rs) (rest : FILE) (s : SanitizeState)
    (w : List Byte) (room : List Nat) :
    copy_loop trans d q r (pre ++ rest) s ⟨w, rs ++ room⟩ =
      copy_loop trans d q r rest (translate_buffer trans d q r s (stream_bytes pre)).1
        ⟨w ++ (translate_buffer trans d q r s (stream_bytes pre)).2, room⟩ := by
  induction hpre generalizing s w with
  | nil => simp [stream_bytes, translate_buffer]
  | @cons x k pre1 rs1 hx _ ih =>
    have hlen : x.bytes.length ≠ 0 := by
      simpa [List.length_eq_zero] using hx.1
    have hk : (translate_buffer trans d q r s x.bytes).2.length ≤ k := by
      rw [translate_buffer_length]
      exact hx.2
    rw [List.cons_append, List.cons_append, copy_loop, if_neg hlen]
    simp only [fwrite_room _ _ _ _ hk, translate_buffer_length, beq_self_eq_true, check,
      if_true]
    rw [ih, stream_bytes_cons, translate_buffer_append]
    simp [List.append_assoc]

/-- A write that takes fewer bytes than the buffer holds ends the loop with 1. -/
theorem copy_loop_short (trans : translator) (d q r : Byte) (x : FreadResult) (post : FILE)
    (s : SanitizeState) (w : List Byte) (k : Nat) (ks : List Nat)
    (hk : k < x.bytes.length) :
    copy_loop trans d q r (x :: post) s ⟨w, k :: ks⟩ =
      (1, (translate_buffer trans d q r s x.bytes).1,
        ⟨w ++ (translate_buffer trans d q r s x.bytes).2.take k, ks⟩) := by
  have hlen : x.bytes.length ≠ 0 := by omega
  have hmin : min k x.bytes.length = k := Nat.min_eq_left (Nat.le_of_lt hk)
  have hne : (k == x.bytes.length) = false := by
    simp only [beq_eq_false_iff_ne, ne_eq]
    omega
  rw [copy_loop, if_neg hlen]
  simp [fwrite, translate_buffer_length, hmin, hne, check]

theorem sanitize_keeps_invariant (d q r : Byte) (s : SanitizeState) (c : Byte)
    (h : s.isMaybeEscapedQuoteChar = true → s.isQuoteInEffect = true) :
    (sanitize d q r s c).1.isMaybeEscapedQuoteChar = true →
      (sanitize d q r s c).1.isQuoteInEffect = true := by
  unfold sanitize
  split_ifs <;> simp_all

theorem sanitize_calls_invariant (calls : List (Byte × Byte × Byte × Byte))
    (s : SanitizeState) (h : s.isMaybeEscapedQuoteChar = true → s.isQuoteInEffect = true) :
    (sanitize_calls calls s).isMaybeEscapedQuoteChar = true →
      (sanitize_calls calls s).isQuoteInEffect = true := by
  induction calls generalizing s with
  | nil => exact h
  | cons x xs ih =>
    simp only [sanitize_calls, List.foldl_cons]
    exact ih _ (sanitize_keeps_invariant _ _ _ s _ h)

theorem translate_buffer_invariant (d q r : Byte) (S : List Byte) (s : SanitizeState)
    (h : s.isMaybeEscapedQuoteChar = true → s.isQuoteInEffect = true) :
    (translate_buffer sanitize d q r s S).1.isMaybeEscapedQuoteChar = true →
      (translate_buffer sanitize d q r s S).1.isQuoteInEffect = true := by
  induction S generalizing s with
  | nil => exact h
  | cons c cs ih =>
    simp only [translate_buffer]
    exact ih _ (sanitize_keeps_invariant d q r s c h)

theorem translate_buffer_take (trans : translator) (d q r : Byte) (s : SanitizeState)
    (S : List Byte) (i : Nat) :
    (translate_buffer trans d q r s S).2.take i =
      (translate_buffer trans d q r s (S.take i)).2 := by
  induction S generalizing s i with
  | nil => simp [translate_buffer]
  | cons c cs ih =>
    cases i with
    | zero => simp [translate_buffer]
    | succ j => simp [translate_buffer, ih]

theorem sanitize_twice_byte (d q r : Byte)
    (hdF : d ≠ NON_PRINTING_FIELD_SEPARATOR) (hdR : d ≠ NON_PRINTING_RECORD_SEPARATOR)
    (hqF : q ≠ NON_PRINTING_FIELD_SEPARATOR) (hqR : q ≠ NON_PRINTING_RECORD_SEPARATOR)
    (hrF : r ≠ NON_PRINTING_FIELD_SEPARATOR) (hrR : r ≠ NON_PRINTING_RECORD_SEPARATOR)
    (s : SanitizeState) (c : Byte) :
    sanitize d q r s (sanitize d q r s c).2 = sanitize d q r s c := by
  have h1 := Ne.symm hdF
  have h2 := Ne.symm hdR
  have h3 := Ne.symm hqF
  have h4 := Ne.symm hqR
  have h5 := Ne.symm hrF
  have h6 := Ne.symm hrR
  rcases s with ⟨a, b⟩
  by_cases hq : c = q
  · subst hq
    cases a <;> cases b <;> simp [sanitize]
  · by_cases hd : c = d
    · subst hd
      cases a <;> cases b <;> simp [sanitize, hq, h1, h3, h5]
    · by_cases hr : c = r
      · subst hr
        cases a <;> cases b <;> simp [sanitize, hq, hd, h2, h4, h6]
      · cases a <;> cases b <;> simp [sanitize, hq, hd, hr]

theorem sanitize_twice_buffer (d q r : Byte)
    (hdF : d ≠ NON_PRINTING_FIELD_SEPARATOR) (hdR : d ≠ NON_PRINTING_RECORD_SEPARATOR)
    (hqF : q ≠ NON_PRINTING_FIELD_SEPARATOR) (hqR : q ≠ NON_PRINTING_RECORD_SEPARATOR)
    (hrF : r ≠ NON_PRINTING_FIELD_SEPARATOR) (hrR : r ≠ NON_PRINTING_RECORD_SEPARATOR)
    (s : SanitizeState) (S : List Byte) :
    translate_buffer sanitize d q r s (translate_buffer sanitize d q r s S).2 =
      translate_buffer sanitize d q r s S := by
  induction S generalizing s with
  | nil => rfl
  | cons c cs ih =>
    simp only [translate_buffer]
    rw [sanitize_twice_byte d q r hdF hdR hqF hqR hrF hrR s c, ih]

theorem copy_file_with_room (op_mode : operation_mode)
    (hm : op_mode ≠ operation_mode.HEADER_MODE) (d q r : Byte) (inp : FILE) (rs : List Nat)
    (hinp : List.Forall₂ complete_write inp rs) (s : SanitizeState) (w : List Byte)
    (room : List Nat) :
    copy_file inp op_mode d q r s ⟨w, rs ++ room⟩ =
      (0, (translate_buffer (select_translator op_mode) d q r s (stream_bytes inp)).1,
        ⟨w ++ (translate_buffer (select_translator op_mode) d q r s (stream_bytes inp)).2,
          room⟩) := by
  unfold copy_file
  simp only [if_neg hm]
  have h := copy_loop_continues (select_translator op_mode) d q r inp rs hinp [] s w room
  rw [List.append_nil] at h
  rw [h, copy_loop]

/-- Files whose reads are all followed by complete writes are copied, and the
loop of `main` goes on with the other files from the state and the output
they leave. -/
theorem main_files_continues (o : Options) (hm : o.op_mode ≠ operation_mode.HEADER_MODE)
    (F : List FILE) (Rs : List (List Nat))
    (hF : List.Forall₂ (List.Forall₂ complete_write) F Rs)
    (rest : List (Option FILE)) (input : InputPtr) (s : SanitizeState) (w : List Byte)
    (room : List Nat) :
    main_files o (F.map some ++ rest) input s ⟨w, Rs.flatten ++ room⟩ =
      main_files o rest (if F = [] then input else InputPtr.closed)
        (translate_buffer (select_translator o.op_mode) o.del o.quo o.rec_ s
          (F.map stream_bytes).flatten).1
        ⟨w ++ (translate_buffer (select_translator o.op_mode) o.del o.quo o.rec_ s
          (F.map stream_bytes).flatten).2, room⟩ := by
  induction hF generalizing input s w with
  | nil => simp [translate_buffer]
  | @cons f rs F1 Rs1 hf _ ih =>
    rw [List.map_cons, List.cons_append, main_files, List.flatten_cons, List.append_assoc,
      copy_file_with_room o.op_mode hm _ _ _ f rs hf]
    simp only [beq_self_eq_true, check, if_true]
    rw [ih, stream_bytes_flatten_cons, translate_buffer_append]
    by_cases hr : F1 = [] <;> simp [hr, List.append_assoc]

theorem copy_file_short (op_mode : operation_mode)
    (hm : op_mode ≠ operation_mode.HEADER_MODE) (d q r : Byte)
    (pre : FILE) (rs : List Nat) (hpre : List.Forall₂ complete_write pre rs)
    (x : FreadResult) (k : Nat) (hk : k < x.bytes.length) (post : FILE) (ks : List Nat)
    (s : SanitizeState) (w : List Byte) :
    copy_file (pre ++ x :: post) op_mode d q r s ⟨w, rs ++ k :: ks⟩ =
      (1,
        (translate_buffer (select_translator op_mode) d q r
          (translate_buffer (select_translator op_mode) d q r s (stream_bytes pre)).1
          x.bytes).1,
        ⟨w ++ (translate_buffer (select_translator op_mode) d q r s (stream_bytes pre)).2 ++
          (translate_buffer (select_translator op_mode) d q r
            (translate_buffer (select_translator op_mode) d q r s (stream_bytes pre)).1
            x.bytes).2.take k, ks⟩) := by
  unfold copy_file
  simp only [if_neg hm]
  rw [copy_loop_continues _ d q r pre rs hpre, copy_loop_short _ d q r x post _ _ k ks hk]

theorem copy_loop_returns_zero (trans : translator) (d q r : Byte) (inp : FILE)
    (s : SanitizeState) (w : List Byte) :
    (copy_loop trans d q r inp s ⟨w, []⟩).1 = 0 := by
  induction inp generalizing s w with
  | nil => rfl
  | cons x rest ih =>
    rw [copy_loop]
    split_ifs with h
    · rfl
    · simp only [fwrite_all, translate_buffer_length, beq_self_eq_true, check, if_true]
      exact ih _ _

theorem sanitize_other_byte (d q r : Byte) (s : SanitizeState) (c : Byte)
    (hd : c ≠ d) (hr : c ≠ r) : (sanitize d q r s c).2 = c := by
  unfold sanitize
  split_ifs <;> simp_all

theorem restore_sanitize_getElem? (d q r : Byte) (S : List Byte) (i : Nat) (c : Byte)
    (hc : S[i]? = some c) (hd : c ≠ d) (hr : c ≠ r) :
    ((translate_buffer sanitize d q r SanitizeState.init S).2.map (restore d q r))[i]? =
      some (restore d q r c) := by
  rw [List.getElem?_map, translate_buffer_getElem? sanitize d q r _ S i c hc,
    sanitize_other_byte d q r _ c hd hr]
  rfl

theorem three_states (s : SanitizeState)
    (h : s.isMaybeEscapedQuoteChar = true → s.isQuoteInEffect = true) :
    s = SanitizeState.Unquoted ∨ s = SanitizeState.Quoted ∨
      s = SanitizeState.PendingQuoteEnd := by
  rcases s with ⟨a, b⟩
  cases a <;> cases b <;>
    simp_all [SanitizeState.Unquoted, SanitizeState.Quoted, SanitizeState.PendingQuoteEnd]

/-! ## The claims -/

/-- C1 (round trip): for every delimiter, quote and record separator, equal or
not, and every byte sequence `S` holding neither 0x1F nor 0x1E, restoring byte
by byte the output of `sanitize` run over `S` from the initial state gives back
`S`; the same holds when `restore` is run by the buffer loop of `copy_file`. -/
theorem sanitize_restore_round_trip (d q r : Byte) (S : List Byte)
    (hF : NON_PRINTING_FIELD_SEPARATOR ∉ S) (hR : NON_PRINTING_RECORD_SEPARATOR ∉ S) :
    (translate_buffer sanitize d q r SanitizeState.init S).2.map (restore d q r) = S ∧
    ∀ s : SanitizeState,
      (translate_buffer restore_translator d q r s
        (translate_buffer sanitize d q r SanitizeState.init S).2).2 = S := by
  refine ⟨restore_sanitize_buffer d q r _ S hF hR, fun s => ?_⟩
  rw [translate_buffer_restore]
  exact restore_sanitize_buffer d q r _ S hF hR

/-- Witness for C1: the input `a,"b,c",d\n` with the default bytes. -/
theorem sanitize_restore_round_trip_witness :
    NON_PRINTING_FIELD_SEPARATOR ∉ ([97, 44, 34, 98, 44, 99, 34, 44, 100, 10] : List Byte) ∧
    NON_PRINTING_RECORD_SEPARATOR ∉ ([97, 44, 34, 98, 44, 99, 34, 44, 100, 10] : List Byte) ∧
    (translate_buffer sanitize 44 34 10 SanitizeState.init
      [97, 44, 34, 98, 44, 99, 34, 44, 100, 10]).2.map (restore 44 34 10)
      = [97, 44, 34, 98, 44, 99, 34, 44, 100, 10] :=
  ⟨by decide, by decide,
    (sanitize_restore_round_trip 44 34 10 [97, 44, 34, 98, 44, 99, 34, 44, 100, 10]
      (by decide) (by decide)).1⟩

/-- C2 (in-quote hiding): with delimiter, quote and record separator pairwise
distinct and neither delimiter nor record separator equal to 0x1F or 0x1E, at
every position `i` of every input `S` that `sanitize`, started unquoted, reaches
in the state `Quoted`, the output byte is neither the delimiter nor the record
separator; a delimiter there comes out as 0x1F, a record separator as 0x1E. -/
theorem sanitize_hides_in_quote (d q r : Byte)
    (hdq : d ≠ q) (hdr : d ≠ r) (hqr : q ≠ r)
    (hdF : d ≠ NON_PRINTING_FIELD_SEPARATOR) (hdR : d ≠ NON_PRINTING_RECORD_SEPARATOR)
    (hrF : r ≠ NON_PRINTING_FIELD_SEPARATOR) (hrR : r ≠ NON_PRINTING_RECORD_SEPARATOR)
    (S : List Byte) (i : Nat) (c : Byte) (hc : S[i]? = some c)
    (hst : (translate_buffer sanitize d q r SanitizeState.init (S.take i)).1
      = SanitizeState.Quoted) :
    ∃ o : Byte, (translate_buffer sanitize d q r SanitizeState.init S).2[i]? = some o ∧
      o ≠ d ∧ o ≠ r ∧
      (c = d → o = NON_PRINTING_FIELD_SEPARATOR) ∧
      (c = r → o = NON_PRINTING_RECORD_SEPARATOR) := by
  refine ⟨_, translate_buffer_getElem? sanitize d q r _ S i c hc, ?_⟩
  rw [hst]
  unfold sanitize SanitizeState.Quoted
  simp only [Bool.false_eq_true, if_false, if_true]
  split_ifs with h1 h2 h3
  · subst h1
    exact ⟨Ne.symm hdq, hqr, fun h => absurd h.symm hdq, fun h => absurd h hqr⟩
  · subst h2
    exact ⟨Ne.symm hdF, Ne.symm hrF, fun _ => rfl, fun h => absurd h hdr⟩
  · subst h3
    exact ⟨Ne.symm hdR, Ne.symm hrR, fun h => absurd h h2, fun _ => rfl⟩
  · exact ⟨h2, h3, fun h => absurd h h2, fun h => absurd h h3⟩

/-- Witness for C2: in `a,"b,c"` with the default bytes, position 4 (the comma
after `b`) is reached in the state `Quoted`. -/
theorem sanitize_hides_in_quote_witness :
    (translate_buffer sanitize 44 34 10 SanitizeState.init
        (([97, 44, 34, 98, 44, 99, 34] : List Byte).take 4)).1 = SanitizeState.Quoted ∧
    ∃ o : Byte,
      (translate_buffer sanitize 44 34 10 SanitizeState.init
        [97, 44, 34, 98, 44, 99, 34]).2[4]? = some o ∧
      o ≠ 44 ∧ o ≠ 10 ∧
      ((44 : Byte) = 44 → o = NON_PRINTING_FIELD_SEPARATOR) ∧
      ((44 : Byte) = 10 → o = NON_PRINTING_RECORD_SEPARATOR) :=
  ⟨by decide,
    sanitize_hides_in_quote 44 34 10 (by decide) (by decide) (by decide) (by decide)
      (by decide) (by decide) (by decide) [97, 44, 34, 98, 44, 99, 34] 4 44
      (by decide) (by decide)⟩

/-- C3 (length preservation): for every configuration, start state and byte
sequence `S`, the output of `sanitize` over `S` and the output of `restore`
over `S` have the length of `S`, and the output byte at each position `i` is
the translation of the input byte at position `i`. -/
theorem translate_length_preserved (d q r : Byte) (s : SanitizeState) (S : List Byte) :
    ((translate_buffer sanitize d q r s S).2.length = S.length ∧
      (translate_buffer restore_translator d q r s S).2.length = S.length) ∧
    (∀ (i : Nat) (c : Byte), S[i]? = some c →
      (translate_buffer sanitize d q r s S).2[i]? =
        some (sanitize d q r (translate_buffer sanitize d q r s (S.take i)).1 c).2 ∧
      (translate_buffer restore_translator d q r s S).2[i]? = some (restore d q r c)) := by
  refine ⟨⟨translate_buffer_length _ d q r s S, translate_buffer_length _ d q r s S⟩, ?_⟩
  intro i c hc
  refine ⟨translate_buffer_getElem? sanitize d q r s S i c hc, ?_⟩
  rw [translate_buffer_getElem? restore_translator d q r s S i c hc]
  rfl

/-- Witness for C3: the ten bytes of `a,"b,c",d\n` with the default bytes, and
the comma at position 4. -/
theorem translate_length_preserved_witness :
    (translate_buffer sanitize 44 34 10 SanitizeState.init
      [97, 44, 34, 98, 44, 99, 34, 44, 100, 10]).2.length = 10 ∧
    (translate_buffer sanitize 44 34 10 SanitizeState.init
      [97, 44, 34, 98, 44, 99, 34, 44, 100, 10]).2[4]? = some NON_PRINTING_FIELD_SEPARATOR :=
  ⟨(translate_length_preserved 44 34 10 SanitizeState.init
      [97, 44, 34, 98, 44, 99, 34, 44, 100, 10]).1.1,
    ((translate_length_preserved 44 34 10 SanitizeState.init
      [97, 44, 34, 98, 44, 99, 34, 44, 100, 10]).2 4 44 (by decide)).1⟩

/-- C4 (transition table): with delimiter `d`, quote `q` and record separator
`r` pairwise distinct, one call of `sanitize` follows the eight rows of the
table: Unquoted+q gives q/Quoted; Unquoted+other gives unchanged/Unquoted;
Quoted+q gives q/PendingQuoteEnd; Quoted+d gives 0x1F/Quoted; Quoted+r gives
0x1E/Quoted; Quoted+other gives unchanged/Quoted; PendingQuoteEnd+q gives
q/Quoted; PendingQuoteEnd+other gives unchanged/Unquoted. -/
theorem sanitize_transition_table (d q r : Byte)
    (hdq : d ≠ q) (hdr : d ≠ r) (hqr : q ≠ r) :
    sanitize d q r SanitizeState.Unquoted q = (SanitizeState.Quoted, q) ∧
    (∀ c : Byte, c ≠ q → sanitize d q r SanitizeState.Unquoted c = (SanitizeState.Unquoted, c)) ∧
    sanitize d q r SanitizeState.Quoted q = (SanitizeState.PendingQuoteEnd, q) ∧
    sanitize d q r SanitizeState.Quoted d = (SanitizeState.Quoted, NON_PRINTING_FIELD_SEPARATOR) ∧
    sanitize d q r SanitizeState.Quoted r = (SanitizeState.Quoted, NON_PRINTING_RECORD_SEPARATOR) ∧
    (∀ c : Byte, c ≠ q → c ≠ d → c ≠ r →
      sanitize d q r SanitizeState.Quoted c = (SanitizeState.Quoted, c)) ∧
    sanitize d q r SanitizeState.PendingQuoteEnd q = (SanitizeState.Quoted, q) ∧
    (∀ c : Byte, c ≠ q →
      sanitize d q r SanitizeState.PendingQuoteEnd c = (SanitizeState.Unquoted, c)) := by
  have hrq : r ≠ q := Ne.symm hqr
  have hrd : r ≠ d := Ne.symm hdr
  refine ⟨?_, ?_, ?_, ?_, ?_, ?_, ?_, ?_⟩
  · simp [sanitize, SanitizeState.Unquoted, SanitizeState.Quoted]
  · intro c hc
    simp [sanitize, SanitizeState.Unquoted, hc]
  · simp [sanitize, SanitizeState.Quoted, SanitizeState.PendingQuoteEnd]
  · simp [sanitize, SanitizeState.Quoted, hdq]
  · simp [sanitize, SanitizeState.Quoted, hrq, hrd]
  · intro c h1 h2 h3
    simp [sanitize, SanitizeState.Quoted, h1, h2, h3]
  · simp [sanitize, SanitizeState.Quoted, SanitizeState.PendingQuoteEnd]
  · intro c hc
    simp [sanitize, SanitizeState.Unquoted, SanitizeState.PendingQuoteEnd, hc]

/-- Witness for C4: the default bytes `,`, `"` and newline. -/
theorem sanitize_transition_table_witness :
    sanitize 44 34 10 SanitizeState.Quoted 44
      = (SanitizeState.Quoted, NON_PRINTING_FIELD_SEPARATOR) ∧
    sanitize 44 34 10 SanitizeState.Quoted 10
      = (SanitizeState.Quoted, NON_PRINTING_RECORD_SEPARATOR) :=
  ⟨(sanitize_transition_table 44 34 10 (by decide) (by decide) (by decide)).2.2.2.1,
    (sanitize_transition_table 44 34 10 (by decide) (by decide) (by decide)).2.2.2.2.1⟩

/-- C5 (closing-quote edge case): for every configuration, a byte `c` other
than the quote character that arrives in the state `PendingQuoteEnd` is emitted
as it is, also when it is the delimiter or the record separator, and the state
becomes `Unquoted`. -/
theorem sanitize_closing_quote (d q r c : Byte) (hc : c ≠ q) :
    sanitize d q r SanitizeState.PendingQuoteEnd c = (SanitizeState.Unquoted, c) := by
  simp [sanitize, SanitizeState.Unquoted, SanitizeState.PendingQuoteEnd, hc]

/-- Witness for C5: the comma that follows a closing quote, with the default
bytes. -/
theorem sanitize_closing_quote_witness :
    (44 : Byte) ≠ 34 ∧
    sanitize 44 34 10 SanitizeState.PendingQuoteEnd 44 = (SanitizeState.Unquoted, 44) :=
  ⟨by decide, sanitize_closing_quote 44 34 10 44 (by decide)⟩

/-- C6 (outside-quote passthrough): for every configuration, input `S` and
position `i`, when `sanitize`, started unquoted and run over the bytes before
`i`, is in the state `Unquoted`, the output byte at `i` is the input byte at
`i`, whatever that byte is. -/
theorem sanitize_unquoted_passthrough (d q r : Byte) (S : List Byte) (i : Nat) (c : Byte)
    (hc : S[i]? = some c)
    (hst : (translate_buffer sanitize d q r SanitizeState.init (S.take i)).1
      = SanitizeState.Unquoted) :
    (translate_buffer sanitize d q r SanitizeState.init S).2[i]? = some c := by
  rw [translate_buffer_getElem? sanitize d q r _ S i c hc, hst]
  unfold sanitize SanitizeState.Unquoted
  simp only [Bool.false_eq_true, if_false]
  split_ifs <;> rfl

/-- Witness for C6: in `a,b\n","` with the default bytes, position 3 (the
newline that ends the first record) is reached in the state `Unquoted`. -/
theorem sanitize_unquoted_passthrough_witness :
    (translate_buffer sanitize 44 34 10 SanitizeState.init
        (([97, 44, 98, 10, 34, 44, 34] : List Byte).take 3)).1 = SanitizeState.Unquoted ∧
    (translate_buffer sanitize 44 34 10 SanitizeState.init
        [97, 44, 98, 10, 34, 44, 34]).2[3]? = some 10 :=
  ⟨by decide,
    sanitize_unquoted_passthrough 44 34 10 [97, 44, 98, 10, 34, 44, 34] 3 10
      (by decide) (by decide)⟩

/-- C8 (chunk-boundary invariance): in sanitize and in restore mode, for every
configuration, start state and stream whose reads are all non-empty, with every
write complete, `copy_file` returns 0 and what it has written is the
translation of all the bytes of the stream in one piece, with the state of
`sanitize` carried from one buffer to the next; so the output is that of the
stream read as a single chunk, and reading the same bytes `S` with buffers of
any two sizes `c1` and `c2` gives the same result. -/
theorem copy_file_chunk_invariance (op_mode : operation_mode)
    (hm : op_mode ≠ operation_mode.HEADER_MODE) (d q r : Byte) (s : SanitizeState)
    (w : List Byte) :
    (∀ inp : FILE, (∀ x ∈ inp, x.bytes ≠ []) →
      copy_file inp op_mode d q r s ⟨w, []⟩ =
        (0, (translate_buffer (select_translator op_mode) d q r s (stream_bytes inp)).1,
          ⟨w ++ (translate_buffer (select_translator op_mode) d q r s (stream_bytes inp)).2,
            []⟩) ∧
      copy_file inp op_mode d q r s ⟨w, []⟩ =
        copy_file [⟨stream_bytes inp, false⟩] op_mode d q r s ⟨w, []⟩) ∧
    (∀ (S : List Byte) (c1 c2 : Nat), 0 < c1 → 0 < c2 →
      copy_file (fread_chunks c1 S.length S) op_mode d q r s ⟨w, []⟩ =
        copy_file (fread_chunks c2 S.length S) op_mode d q r s ⟨w, []⟩) := by
  refine ⟨fun inp hne => ⟨copy_file_complete op_mode hm d q r inp s w hne, ?_⟩, ?_⟩
  · rw [copy_file_complete op_mode hm d q r inp s w hne]
    by_cases hS : stream_bytes inp = []
    · simp [copy_file, hm, copy_loop, hS, translate_buffer]
    · rw [copy_file_complete op_mode hm d q r [⟨stream_bytes inp, false⟩] s w
        (by simpa using hS)]
      simp [stream_bytes]
  · intro S c1 c2 h1 h2
    rw [copy_file_complete op_mode hm d q r _ s w (fread_chunks_nonempty c1 _ S h1),
      copy_file_complete op_mode hm d q r _ s w (fread_chunks_nonempty c2 _ S h2),
      fread_chunks_bytes c1 _ S h1 (Nat.le_refl _), fread_chunks_bytes c2 _ S h2 (Nat.le_refl _)]

/-- Witness for C8: `a,"b,c",d\n` read with buffers of 3 and of 4 bytes in
sanitize mode with the default bytes; the quoted field is cut by both. -/
theorem copy_file_chunk_invariance_witness :
    operation_mode.SANITIZE_MODE ≠ operation_mode.HEADER_MODE ∧ 0 < 3 ∧ 0 < 4 ∧
    copy_file (fread_chunks 3 10 [97, 44, 34, 98, 44, 99, 34, 44, 100, 10])
        operation_mode.SANITIZE_MODE 44 34 10 SanitizeState.init ⟨[], []⟩ =
      copy_file (fread_chunks 4 10 [97, 44, 34, 98, 44, 99, 34, 44, 100, 10])
        operation_mode.SANITIZE_MODE 44 34 10 SanitizeState.init ⟨[], []⟩ ∧
    copy_file (fread_chunks 3 10 [97, 44, 34, 98, 44, 99, 34, 44, 100, 10])
        operation_mode.SANITIZE_MODE 44 34 10 SanitizeState.init ⟨[], []⟩ =
      (0, SanitizeState.Unquoted, ⟨[97, 44, 34, 98, 31, 99, 34, 44, 100, 10], []⟩) :=
  ⟨by decide, by decide, by decide,
    (copy_file_chunk_invariance operation_mode.SANITIZE_MODE (by decide) 44 34 10
      SanitizeState.init []).2 [97, 44, 34, 98, 44, 99, 34, 44, 100, 10] 3 4
      (by decide) (by decide),
    by decide⟩

/-- C9 (multi-file continuity): what `main` does when the options select
sanitize or restore mode and one or more files are given, every `fopen`
succeeding, no read empty and every write complete.  The loop over the files
runs to its end having written the translation of the bytes of all the files,
in argument order, by one translator started in the initial state, and after
the first `k` files it goes on from the state of `sanitize` and the output
reached at the end of file `k`: the state is not reset.  But `input`, the last
file, was closed at line 151 and is closed again at line 155: the behaviour of
the run is undefined, where the specification asks for an output equal to the
translation of all the files. -/
theorem main_files_then_double_fclose (opts : List (Nat × List Byte)) (o : Options)
    (ho : option_loop opts default_options = some o)
    (hm : o.op_mode ≠ operation_mode.HEADER_MODE)
    (stdin : FILE) (F : List FILE) (hF : F ≠ [])
    (hne : ∀ f ∈ F, ∀ x ∈ f, x.bytes ≠ []) (w : List Byte) :
    main_files o (F.map some) InputPtr.null SanitizeState.init ⟨w, []⟩ =
      (0, InputPtr.closed,
        (translate_buffer (select_translator o.op_mode) o.del o.quo o.rec_
            SanitizeState.init (F.map stream_bytes).flatten).1,
        ⟨w ++ (translate_buffer (select_translator o.op_mode) o.del o.quo o.rec_
            SanitizeState.init (F.map stream_bytes).flatten).2, []⟩) ∧
    (∀ k : Nat,
      main_files o (F.map some) InputPtr.null SanitizeState.init ⟨w, []⟩ =
        main_files o ((F.drop k).map some)
          (if F.take k = [] then InputPtr.null else InputPtr.closed)
          (translate_buffer (select_translator o.op_mode) o.del o.quo o.rec_
            SanitizeState.init ((F.take k).map stream_bytes).flatten).1
          ⟨w ++ (translate_buffer (select_translator o.op_mode) o.del o.quo o.rec_
            SanitizeState.init ((F.take k).map stream_bytes).flatten).2, []⟩) ∧
    main opts stdin (F.map some) ⟨w, []⟩ = none := by
  have hloop := main_files_complete o hm F InputPtr.null SanitizeState.init w hne
  rw [if_neg hF] at hloop
  refine ⟨hloop, ?_, ?_⟩
  · intro k
    have hdrop : ∀ f ∈ F.drop k, ∀ x ∈ f, x.bytes ≠ [] :=
      fun f hf => hne f (List.mem_of_mem_drop hf)
    rw [hloop, main_files_complete o hm (F.drop k) _ _ _ hdrop]
    have hinput : (if F.drop k = [] then
        (if F.take k = [] then InputPtr.null else InputPtr.closed)
        else InputPtr.closed) = InputPtr.closed := by
      by_cases hd : F.drop k = []
      · have ht : F.take k ≠ [] := by
          intro ht
          apply hF
          rw [← List.take_append_drop k F, ht, hd]
          rfl
        rw [if_pos hd, if_neg ht]
      · rw [if_neg hd]
    rw [hinput]
    conv_lhs => rw [← List.take_append_drop k F]
    rw [List.map_append, List.flatten_append, translate_buffer_append]
    simp [List.append_assoc]
  · have hmain : main opts stdin (F.map some) ⟨w, []⟩ =
        main_exit
          (main_files o (F.map some) InputPtr.null SanitizeState.init ⟨w, []⟩).1
          (main_files o (F.map some) InputPtr.null SanitizeState.init ⟨w, []⟩).2.1
          (main_files o (F.map some) InputPtr.null SanitizeState.init ⟨w, []⟩).2.2.1
          (main_files o (F.map some) InputPtr.null SanitizeState.init ⟨w, []⟩).2.2.2 := by
      unfold main
      rw [ho]
      cases F with
      | nil => exact absurd rfl hF
      | cons f rest => rfl
    rw [hmain, hloop]
    rfl

/-- Witness for C9: two files with the default options; the first one ends
inside a quoted field, so the comma of the second one is replaced; then the
second file is closed twice. -/
theorem main_files_then_double_fclose_witness :
    option_loop [] default_options = some default_options ∧
    main_files default_options
        [some [⟨[97, 44, 34, 98], false⟩], some [⟨[44, 99, 34, 10], false⟩]]
        InputPtr.null SanitizeState.init ⟨[], []⟩ =
      (0, InputPtr.closed, SanitizeState.Unquoted, ⟨[97, 44, 34, 98, 31, 99, 34, 10], []⟩) ∧
    main [] [] [some [⟨[97, 44, 34, 98], false⟩], some [⟨[44, 99, 34, 10], false⟩]] ⟨[], []⟩ =
      none :=
  ⟨rfl, by decide,
    (main_files_then_double_fclose [] default_options rfl (by decide) []
      [[⟨[97, 44, 34, 98], false⟩], [⟨[44, 99, 34, 10], false⟩]] (by decide)
      (by decide) []).2.2⟩

/-- C10 (restore is a stateless per-byte map): for every configuration,
`restore` maps 0x1F to the delimiter, 0x1E to the record separator and every
other byte to itself; the result depends neither on the quote character nor
on the statics of `sanitize`, which it leaves alone, so restoring `S1 ++ S2`
is restoring `S1` and `S2` apart; `a,"b<0x1F>c",d\n` comes back as
`a,"b,c",d\n`. -/
theorem restore_stateless_byte_map (d q r : Byte) :
    restore d q r NON_PRINTING_FIELD_SEPARATOR = d ∧
    restore d q r NON_PRINTING_RECORD_SEPARATOR = r ∧
    (∀ c : Byte, c ≠ NON_PRINTING_FIELD_SEPARATOR → c ≠ NON_PRINTING_RECORD_SEPARATOR →
      restore d q r c = c) ∧
    (∀ q2 c : Byte, restore d q2 r c = restore d q r c) ∧
    (∀ (s : SanitizeState) (S : List Byte),
      translate_buffer restore_translator d q r s S = (s, S.map (restore d q r))) ∧
    (∀ (s1 s2 : SanitizeState) (S1 S2 : List Byte),
      (translate_buffer restore_translator d q r s1 (S1 ++ S2)).2 =
        (translate_buffer restore_translator d q r s1 S1).2 ++
          (translate_buffer restore_translator d q r s2 S2).2) ∧
    (translate_buffer restore_translator 44 34 10 SanitizeState.init
        [97, 44, 34, 98, 31, 99, 34, 44, 100, 10]).2
      = [97, 44, 34, 98, 44, 99, 34, 44, 100, 10] := by
  refine ⟨?_, ?_, ?_, ?_, ?_, ?_, ?_⟩
  · simp [restore]
  · have hne : NON_PRINTING_RECORD_SEPARATOR ≠ NON_PRINTING_FIELD_SEPARATOR := by decide
    simp [restore, hne]
  · intro c h1 h2
    simp [restore, h1, h2]
  · intro q2 c
    rfl
  · exact fun s S => translate_buffer_restore d q r s S
  · intro s1 s2 S1 S2
    simp [translate_buffer_restore]
  · decide

/-- C11 (restore is the identity on sentinel-free data): for every
configuration and every byte sequence `S` that holds neither 0x1F nor 0x1E,
`restore` applied to every byte of `S` gives `S`, also when it is run by the
buffer loop of `copy_file`, which then leaves the statics as they are. -/
theorem restore_identity_without_sentinels (d q r : Byte) (S : List Byte)
    (hF : NON_PRINTING_FIELD_SEPARATOR ∉ S) (hR : NON_PRINTING_RECORD_SEPARATOR ∉ S) :
    S.map (restore d q r) = S ∧
    ∀ s : SanitizeState, translate_buffer restore_translator d q r s S = (s, S) := by
  have hmap : S.map (restore d q r) = S := by
    induction S with
    | nil => rfl
    | cons c cs ih =>
      simp only [List.mem_cons, not_or] at hF hR
      have h1 : c ≠ NON_PRINTING_FIELD_SEPARATOR := Ne.symm hF.1
      have h2 : c ≠ NON_PRINTING_RECORD_SEPARATOR := Ne.symm hR.1
      simp [restore, h1, h2, ih hF.2 hR.2]
  refine ⟨hmap, fun s => ?_⟩
  rw [translate_buffer_restore, hmap]

/-- Witness for C11: `a,"b,c",d\n` with the default bytes. -/
theorem restore_identity_without_sentinels_witness :
    NON_PRINTING_FIELD_SEPARATOR ∉ ([97, 44, 34, 98, 44, 99, 34, 44, 100, 10] : List Byte) ∧
    NON_PRINTING_RECORD_SEPARATOR ∉ ([97, 44, 34, 98, 44, 99, 34, 44, 100, 10] : List Byte) ∧
    ([97, 44, 34, 98, 44, 99, 34, 44, 100, 10] : List Byte).map (restore 44 34 10)
      = [97, 44, 34, 98, 44, 99, 34, 44, 100, 10] :=
  ⟨by decide, by decide,
    (restore_identity_without_sentinels 44 34 10 [97, 44, 34, 98, 44, 99, 34, 44, 100, 10]
      (by decide) (by decide)).1⟩

/-- C12 (scenario 1): the default parameters of `main` are `,`, `"`, newline
and sanitize mode; with them `sanitize`, started unquoted, turns the ten bytes
`a,"b,c",d\n` into `a,"b<0x1F>c",d\n`, and so does `main` without options
reading them from the standard input: only the comma inside the quotes is
replaced. -/
theorem scenario_quoted_comma :
    default_options = ⟨44, 34, 10, operation_mode.SANITIZE_MODE⟩ ∧
    translate_buffer sanitize default_options.del default_options.quo default_options.rec_
        SanitizeState.Unquoted [97, 44, 34, 98, 44, 99, 34, 44, 100, 10]
      = (SanitizeState.Unquoted, [97, 44, 34, 98, 31, 99, 34, 44, 100, 10]) ∧
    main [] [⟨[97, 44, 34, 98, 44, 99, 34, 44, 100, 10], false⟩] [] ⟨[], []⟩
      = some (0, SanitizeState.Unquoted, ⟨[97, 44, 34, 98, 31, 99, 34, 44, 100, 10], []⟩) := by
  refine ⟨rfl, ?_, ?_⟩ <;> decide

/-- C13 (scenario 2): with the default parameters `sanitize`, started unquoted,
leaves the input `"a""b",c\n` as it is: the doubled quote is kept and the comma
after the closing quote is not replaced. -/
theorem scenario_doubled_quote :
    translate_buffer sanitize default_options.del default_options.quo default_options.rec_
        SanitizeState.Unquoted [34, 97, 34, 34, 98, 34, 44, 99, 10]
      = (SanitizeState.Unquoted, [34, 97, 34, 34, 98, 34, 44, 99, 10]) ∧
    main [] [⟨[34, 97, 34, 34, 98, 34, 44, 99, 10], false⟩] [] ⟨[], []⟩
      = some (0, SanitizeState.Unquoted, ⟨[34, 97, 34, 34, 98, 34, 44, 99, 10], []⟩) := by
  constructor <;> decide

/-- C14 (scenario 4): with the default parameters `sanitize`, started unquoted,
turns `"line1\nline2",x\n` into `"line1<0x1E>line2",x\n`: the newline inside the
quotes becomes 0x1E and the last newline, outside the quotes, stays. -/
theorem scenario_quoted_newline :
    translate_buffer sanitize default_options.del default_options.quo default_options.rec_
        SanitizeState.Unquoted
        [34, 108, 105, 110, 101, 49, 10, 108, 105, 110, 101, 50, 34, 44, 120, 10]
      = (SanitizeState.Unquoted,
        [34, 108, 105, 110, 101, 49, 30, 108, 105, 110, 101, 50, 34, 44, 120, 10]) ∧
    main [] [⟨[34, 108, 105, 110, 101, 49, 10, 108, 105, 110, 101, 50, 34, 44, 120, 10], false⟩]
        [] ⟨[], []⟩
      = some (0, SanitizeState.Unquoted,
        ⟨[34, 108, 105, 110, 101, 49, 30, 108, 105, 110, 101, 50, 34, 44, 120, 10], []⟩) := by
  constructor <;> decide

/-- C15 (short write aborts): in sanitize and in restore mode, when the reads
`pre` are followed by complete writes and the write after the read `x` takes
only `k` bytes, fewer than `x` holds, `copy_file` returns 1: the output is what
was written before, the translation of `pre` and the first `k` translated bytes
of `x`; the reads `post` and the coming writes `ks` are not touched.  `main`
then exits with 1 and the same output, be the stream its standard input or a
file that comes after files copied in full; that file, still open, is closed
once, and the files after it are not opened. -/
theorem short_write_aborts (op_mode : operation_mode)
    (hm : op_mode ≠ operation_mode.HEADER_MODE) (d q r : Byte)
    (pre : FILE) (rs : List Nat) (hpre : List.Forall₂ complete_write pre rs)
    (x : FreadResult) (k : Nat) (hk : k < x.bytes.length) (post : FILE) (ks : List Nat)
    (s : SanitizeState) (w : List Byte) :
    copy_file (pre ++ x :: post) op_mode d q r s ⟨w, rs ++ k :: ks⟩ =
      (1,
        (translate_buffer (select_translator op_mode) d q r
          (translate_buffer (select_translator op_mode) d q r s (stream_bytes pre)).1
          x.bytes).1,
        ⟨w ++ (translate_buffer (select_translator op_mode) d q r s (stream_bytes pre)).2 ++
          (translate_buffer (select_translator op_mode) d q r
            (translate_buffer (select_translator op_mode) d q r s (stream_bytes pre)).1
            x.bytes).2.take k, ks⟩) ∧
    (∀ opts : List (Nat × List Byte),
      option_loop opts default_options = some ⟨d, q, r, op_mode⟩ →
      main opts (pre ++ x :: post) [] ⟨w, rs ++ k :: ks⟩ =
        some (1, (copy_file (pre ++ x :: post) op_mode d q r SanitizeState.init
          ⟨w, rs ++ k :: ks⟩).2)) ∧
    (∀ (opts : List (Nat × List Byte)) (stdin : FILE) (F : List FILE) (Rs : List (List Nat))
      (more : List (Option FILE)),
      option_loop opts default_options = some ⟨d, q, r, op_mode⟩ →
      List.Forall₂ (List.Forall₂ complete_write) F Rs →
      main opts stdin (F.map some ++ some (pre ++ x :: post) :: more)
          ⟨w, Rs.flatten ++ (rs ++ k :: ks)⟩ =
        some (1, (copy_file (pre ++ x :: post) op_mode d q r
          (translate_buffer (select_translator op_mode) d q r SanitizeState.init
            (F.map stream_bytes).flatten).1
          ⟨w ++ (translate_buffer (select_translator op_mode) d q r SanitizeState.init
            (F.map stream_bytes).flatten).2, rs ++ k :: ks⟩).2)) := by
  refine ⟨copy_file_short op_mode hm d q r pre rs hpre x k hk post ks s w, ?_, ?_⟩
  · intro opts ho
    unfold main
    rw [ho]
    simp only [copy_file_short op_mode hm d q r pre rs hpre x k hk post ks, check]
    simp [main_exit, fclose_input]
  · intro opts stdin F Rs more ho hF
    have hmain : main opts stdin (F.map some ++ some (pre ++ x :: post) :: more)
        ⟨w, Rs.flatten ++ (rs ++ k :: ks)⟩ =
        main_exit
          (main_files ⟨d, q, r, op_mode⟩ (F.map some ++ some (pre ++ x :: post) :: more)
            InputPtr.null SanitizeState.init ⟨w, Rs.flatten ++ (rs ++ k :: ks)⟩).1
          (main_files ⟨d, q, r, op_mode⟩ (F.map some ++ some (pre ++ x :: post) :: more)
            InputPtr.null SanitizeState.init ⟨w, Rs.flatten ++ (rs ++ k :: ks)⟩).2.1
          (main_files ⟨d, q, r, op_mode⟩ (F.map some ++ some (pre ++ x :: post) :: more)
            InputPtr.null SanitizeState.init ⟨w, Rs.flatten ++ (rs ++ k :: ks)⟩).2.2.1
          (main_files ⟨d, q, r, op_mode⟩ (F.map some ++ some (pre ++ x :: post) :: more)
            InputPtr.null SanitizeState.init ⟨w, Rs.flatten ++ (rs ++ k :: ks)⟩).2.2.2 := by
      unfold main
      rw [ho]
      cases F <;> rfl
    rw [hmain, main_files_continues ⟨d, q, r, op_mode⟩ hm F Rs hF, main_files]
    simp only [copy_file_short op_mode hm d q r pre rs hpre x k hk post ks, check]
    simp [main_exit, fclose_input]

/-- Witness for C15: `a,"` is written in full, of `b,c` only one byte is taken;
`"\n` is never read. -/
theorem short_write_aborts_witness :
    operation_mode.SANITIZE_MODE ≠ operation_mode.HEADER_MODE ∧
    List.Forall₂ complete_write [⟨[97, 44, 34], false⟩] [3] ∧
    1 < (⟨[98, 44, 99], false⟩ : FreadResult).bytes.length ∧
    copy_file [⟨[97, 44, 34], false⟩, ⟨[98, 44, 99], false⟩, ⟨[34, 10], false⟩]
        operation_mode.SANITIZE_MODE 44 34 10 SanitizeState.init ⟨[], [3, 1]⟩ =
      (1, SanitizeState.Quoted, ⟨[97, 44, 34, 98], []⟩) ∧
    main [] [⟨[97, 44, 34], false⟩, ⟨[98, 44, 99], false⟩, ⟨[34, 10], false⟩] []
        ⟨[], [3, 1]⟩ =
      some (1, SanitizeState.Quoted, ⟨[97, 44, 34, 98], []⟩) :=
  ⟨by decide, List.Forall₂.cons ⟨by decide, by decide⟩ List.Forall₂.nil, by decide,
    (short_write_aborts operation_mode.SANITIZE_MODE (by decide) 44 34 10
      [⟨[97, 44, 34], false⟩] [3]
      (List.Forall₂.cons ⟨by decide, by decide⟩ List.Forall₂.nil)
      ⟨[98, 44, 99], false⟩ 1 (by decide) [⟨[34, 10], false⟩] []
      SanitizeState.init []).1.trans (by decide),
    by decide⟩

/-- C16 (read error): what `copy_file` does when a read fails.  The loop only
tests the number of bytes `fread` returns, so a read that fails with no byte
ends it like the end of the input: `copy_file` returns 0, and `main` reading
the standard input exits with 0; as long as every write is complete
`copy_file` returns 0 whatever the reads were.  The specification asks for a
non-zero return and exit status 1 there. -/
theorem read_error_returns_zero :
    (∀ (op_mode : operation_mode) (d q r : Byte) (post : FILE) (s : SanitizeState)
      (out : Stdout),
      copy_file (⟨[], true⟩ :: post) op_mode d q r s out = (0, s, out)) ∧
    (∀ (op_mode : operation_mode) (d q r : Byte) (inp : FILE) (s : SanitizeState)
      (w : List Byte), (copy_file inp op_mode d q r s ⟨w, []⟩).1 = 0) ∧
    main [] [⟨[], true⟩] [] ⟨[], []⟩ = some (0, SanitizeState.init, ⟨[], []⟩) ∧
    main [] [⟨[97, 44], true⟩, ⟨[], true⟩] [] ⟨[], []⟩ =
      some (0, SanitizeState.init, ⟨[97, 44], []⟩) := by
  refine ⟨?_, ?_, by decide, by decide⟩
  · intro op_mode d q r post s out
    unfold copy_file
    split_ifs
    · rfl
    · simp [copy_loop]
  · intro op_mode d q r inp s w
    unfold copy_file
    split_ifs
    · rfl
    · exact copy_loop_returns_zero _ d q r inp s w

/-- C17 (unbalanced quoting is not an error): in sanitize and in restore mode,
for every configuration, start state and input `S`, however it is cut into
non-empty reads and whatever state it leaves `sanitize` in, with every write
complete `copy_file` returns 0 and has written the translation of all the bytes
of `S`, as many bytes as `S` has.  So it is for `"a`, which ends in the state
`Quoted`, and for `"a"`, which ends in `PendingQuoteEnd`. -/
theorem unbalanced_quoting_no_error (op_mode : operation_mode)
    (hm : op_mode ≠ operation_mode.HEADER_MODE) (d q r : Byte) (s : SanitizeState)
    (w : List Byte) (S : List Byte) (inp : FILE) (hne : ∀ x ∈ inp, x.bytes ≠ [])
    (hS : stream_bytes inp = S) :
    copy_file inp op_mode d q r s ⟨w, []⟩ =
      (0, (translate_buffer (select_translator op_mode) d q r s S).1,
        ⟨w ++ (translate_buffer (select_translator op_mode) d q r s S).2, []⟩) ∧
    (copy_file inp op_mode d q r s ⟨w, []⟩).2.2.written.length = w.length + S.length ∧
    copy_file [⟨[34, 97], false⟩] operation_mode.SANITIZE_MODE 44 34 10 SanitizeState.init
        ⟨[], []⟩ = (0, SanitizeState.Quoted, ⟨[34, 97], []⟩) ∧
    copy_file [⟨[34, 97, 34], false⟩] operation_mode.SANITIZE_MODE 44 34 10
        SanitizeState.init ⟨[], []⟩ = (0, SanitizeState.PendingQuoteEnd, ⟨[34, 97, 34], []⟩) := by
  subst hS
  refine ⟨copy_file_complete op_mode hm d q r inp s w hne, ?_, by decide, by decide⟩
  rw [copy_file_complete op_mode hm d q r inp s w hne]
  simp [translate_buffer_length]

/-- Witness for C17: `"a,b` read in two pieces with the default bytes; the run
ends inside the quoted field. -/
theorem unbalanced_quoting_no_error_witness :
    operation_mode.SANITIZE_MODE ≠ operation_mode.HEADER_MODE ∧
    (∀ x ∈ ([⟨[34, 97], false⟩, ⟨[44, 98], false⟩] : FILE), x.bytes ≠ []) ∧
    stream_bytes [⟨[34, 97], false⟩, ⟨[44, 98], false⟩] = [34, 97, 44, 98] ∧
    copy_file [⟨[34, 97], false⟩, ⟨[44, 98], false⟩] operation_mode.SANITIZE_MODE 44 34 10
        SanitizeState.init ⟨[], []⟩ = (0, SanitizeState.Quoted, ⟨[34, 97, 31, 98], []⟩) :=
  ⟨by decide, by decide, by decide,
    (unbalanced_quoting_no_error operation_mode.SANITIZE_MODE (by decide) 44 34 10
      SanitizeState.init [] [34, 97, 44, 98] [⟨[34, 97], false⟩, ⟨[44, 98], false⟩]
      (by decide) (by decide)).1.trans (by decide)⟩

/-- C18 (sentinel bytes in the input corrupt the round trip): when neither the
delimiter nor the record separator is 0x1F or 0x1E and `S` holds a byte 0x1F or
0x1E, restoring the output of `sanitize` over `S` does not give `S`: at every
position where `S` has 0x1F the result has the delimiter, and where `S` has
0x1E the record separator. -/
theorem sentinel_corrupts_round_trip (d q r : Byte)
    (hdF : d ≠ NON_PRINTING_FIELD_SEPARATOR) (hdR : d ≠ NON_PRINTING_RECORD_SEPARATOR)
    (hrF : r ≠ NON_PRINTING_FIELD_SEPARATOR) (hrR : r ≠ NON_PRINTING_RECORD_SEPARATOR)
    (S : List Byte)
    (h : NON_PRINTING_FIELD_SEPARATOR ∈ S ∨ NON_PRINTING_RECORD_SEPARATOR ∈ S) :
    (translate_buffer sanitize d q r SanitizeState.init S).2.map (restore d q r) ≠ S ∧
    ∀ i : Nat,
      (S[i]? = some NON_PRINTING_FIELD_SEPARATOR →
        ((translate_buffer sanitize d q r SanitizeState.init S).2.map (restore d q r))[i]?
          = some d) ∧
      (S[i]? = some NON_PRINTING_RECORD_SEPARATOR →
        ((translate_buffer sanitize d q r SanitizeState.init S).2.map (restore d q r))[i]?
          = some r) := by
  have hne : NON_PRINTING_RECORD_SEPARATOR ≠ NON_PRINTING_FIELD_SEPARATOR := by decide
  have hpos : ∀ i : Nat,
      (S[i]? = some NON_PRINTING_FIELD_SEPARATOR →
        ((translate_buffer sanitize d q r SanitizeState.init S).2.map (restore d q r))[i]?
          = some d) ∧
      (S[i]? = some NON_PRINTING_RECORD_SEPARATOR →
        ((translate_buffer sanitize d q r SanitizeState.init S).2.map (restore d q r))[i]?
          = some r) := by
    intro i
    constructor
    · intro hi
      rw [restore_sanitize_getElem? d q r S i _ hi (Ne.symm hdF) (Ne.symm hrF)]
      simp [restore]
    · intro hi
      rw [restore_sanitize_getElem? d q r S i _ hi (Ne.symm hdR) (Ne.symm hrR)]
      simp [restore, hne]
  refine ⟨?_, hpos⟩
  intro heq
  rcases h with h | h
  · obtain ⟨i, hi⟩ := List.mem_iff_getElem?.1 h
    have h1 := (hpos i).1 hi
    rw [heq, hi] at h1
    exact hdF (Option.some.inj h1).symm
  · obtain ⟨i, hi⟩ := List.mem_iff_getElem?.1 h
    have h1 := (hpos i).2 hi
    rw [heq, hi] at h1
    exact hrR (Option.some.inj h1).symm

/-- Witness for C18: `a<0x1F>b` with the default bytes comes back as `a,b`. -/
theorem sentinel_corrupts_round_trip_witness :
    (NON_PRINTING_FIELD_SEPARATOR ∈ ([97, 31, 98] : List Byte) ∨
      NON_PRINTING_RECORD_SEPARATOR ∈ ([97, 31, 98] : List Byte)) ∧
    (translate_buffer sanitize 44 34 10 SanitizeState.init [97, 31, 98]).2.map
      (restore 44 34 10) ≠ [97, 31, 98] ∧
    (translate_buffer sanitize 44 34 10 SanitizeState.init [97, 31, 98]).2.map
      (restore 44 34 10) = [97, 44, 98] :=
  ⟨by decide,
    (sentinel_corrupts_round_trip 44 34 10 (by decide) (by decide) (by decide) (by decide)
      [97, 31, 98] (by decide)).1,
    by decide⟩

/-- C19 (three states): started from both flags `false`, after any calls of
`sanitize`, each with any delimiter, quote character, record separator and
byte, `isMaybeEscapedQuoteChar` implies `isQuoteInEffect`: the flags are never
(false, true), the state is always `Unquoted`, `Quoted` or `PendingQuoteEnd`;
so it is after the buffer loop over any input. -/
theorem sanitize_state_three_variants :
    (∀ calls : List (Byte × Byte × Byte × Byte),
      ((sanitize_calls calls SanitizeState.init).isMaybeEscapedQuoteChar = true →
        (sanitize_calls calls SanitizeState.init).isQuoteInEffect = true) ∧
      sanitize_calls calls SanitizeState.init ≠ ⟨false, true⟩ ∧
      (sanitize_calls calls SanitizeState.init = SanitizeState.Unquoted ∨
        sanitize_calls calls SanitizeState.init = SanitizeState.Quoted ∨
        sanitize_calls calls SanitizeState.init = SanitizeState.PendingQuoteEnd)) ∧
    (∀ (d q r : Byte) (S : List Byte),
      ((translate_buffer sanitize d q r SanitizeState.init S).1.isMaybeEscapedQuoteChar = true →
        (translate_buffer sanitize d q r SanitizeState.init S).1.isQuoteInEffect = true) ∧
      (translate_buffer sanitize d q r SanitizeState.init S).1 ≠ ⟨false, true⟩ ∧
      ((translate_buffer sanitize d q r SanitizeState.init S).1 = SanitizeState.Unquoted ∨
        (translate_buffer sanitize d q r SanitizeState.init S).1 = SanitizeState.Quoted ∨
        (translate_buffer sanitize d q r SanitizeState.init S).1
          = SanitizeState.PendingQuoteEnd)) := by
  have hinit : SanitizeState.init.isMaybeEscapedQuoteChar = true →
      SanitizeState.init.isQuoteInEffect = true := by decide
  constructor
  · intro calls
    have h := sanitize_calls_invariant calls SanitizeState.init hinit
    refine ⟨h, ?_, three_states _ h⟩
    intro heq
    rw [heq] at h
    exact absurd (h rfl) (by decide)
  · intro d q r S
    have h := translate_buffer_invariant d q r S SanitizeState.init hinit
    refine ⟨h, ?_, three_states _ h⟩
    intro heq
    rw [heq] at h
    exact absurd (h rfl) (by decide)

/-- C20 (sanitize is idempotent): when none of delimiter, quote character and
record separator is 0x1F or 0x1E, running `sanitize` from the initial state
over its own output for `S` gives that output again and ends in the same state,
and before every position the two runs are in the same state. -/
theorem sanitize_idempotent (d q r : Byte)
    (hdF : d ≠ NON_PRINTING_FIELD_SEPARATOR) (hdR : d ≠ NON_PRINTING_RECORD_SEPARATOR)
    (hqF : q ≠ NON_PRINTING_FIELD_SEPARATOR) (hqR : q ≠ NON_PRINTING_RECORD_SEPARATOR)
    (hrF : r ≠ NON_PRINTING_FIELD_SEPARATOR) (hrR : r ≠ NON_PRINTING_RECORD_SEPARATOR)
    (S : List Byte) :
    translate_buffer sanitize d q r SanitizeState.init
        (translate_buffer sanitize d q r SanitizeState.init S).2 =
      translate_buffer sanitize d q r SanitizeState.init S ∧
    ∀ i : Nat,
      (translate_buffer sanitize d q r SanitizeState.init
        ((translate_buffer sanitize d q r SanitizeState.init S).2.take i)).1 =
      (translate_buffer sanitize d q r SanitizeState.init (S.take i)).1 := by
  refine ⟨sanitize_twice_buffer d q r hdF hdR hqF hqR hrF hrR _ S, fun i => ?_⟩
  rw [translate_buffer_take, sanitize_twice_buffer d q r hdF hdR hqF hqR hrF hrR _ (S.take i)]

/-- Witness for C20: `a,"b,c",d\n` with the default bytes. -/
theorem sanitize_idempotent_witness :
    translate_buffer sanitize 44 34 10 SanitizeState.init
        (translate_buffer sanitize 44 34 10 SanitizeState.init
          [97, 44, 34, 98, 44, 99, 34, 44, 100, 10]).2 =
      (SanitizeState.Unquoted, [97, 44, 34, 98, 31, 99, 34, 44, 100, 10]) :=
  (sanitize_idempotent 44 34 10 (by decide) (by decide) (by decide) (by decide) (by decide)
    (by decide) [97, 44, 34, 98, 44, 99, 34, 44, 100, 10]).1.trans (by decide)

end Csvquote
